import Mathlib

/-!
Verification development for the B2 deduplicating uploader/downloader
(`b2_dedup.py`).  The Python source is shallowly embedded: pure helpers
become Lean functions over `List Char` / `String`, the per-file upload
decision procedure (`process_file`) becomes a pure state transformer over
an explicit database/remote-store state, and the download pipeline becomes
a pure state transformer over a cache/fetch-log state.  Effectful inputs
(current time, hashing results, remote contents, JSON decoding of pointer
bytes) are passed in as explicit parameters or oracles.
-/

namespace B2Dedup

/-! ### Key sanitization (`sanitize_b2_path`) and percent-decoding -/

/-- Uppercase hexadecimal digit for `n < 16`, as produced by Python's
`f-string` format `{n:02X}`. -/
def hexDigitChar (n : Nat) : Char :=
  if n < 10 then Char.ofNat (48 + n) else Char.ofNat (55 + n)

/-- A character is a control character rejected by B2: code points
`0x00`–`0x1F` and `0x7F`.  This is the character class of the regex
`[\x00-\x1f\x7f]` in `sanitize_b2_path`. -/
def isB2Control (c : Char) : Bool :=
  c.toNat ≤ 0x1f || c.toNat = 0x7f

/-- `sanitize_b2_path` on the character list: every control character
(`0x00`–`0x1F`, `0x7F`) is replaced by `%` followed by its two-digit
uppercase hex code; every other character is passed through.  This is the
`re.sub` in `sanitize_b2_path`. -/
def sanitizeChars : List Char → List Char
  | [] => []
  | c :: rest =>
      if isB2Control c then
        '%' :: hexDigitChar (c.toNat / 16) :: hexDigitChar (c.toNat % 16) :: sanitizeChars rest
      else
        c :: sanitizeChars rest

/-- `sanitize_b2_path` on strings. -/
def sanitize_b2_path (s : String) : String :=
  ⟨sanitizeChars s.data⟩

/-- Hexadecimal digits accepted by Python's percent-decoder:
`0-9`, `a-f`, `A-F`. -/
def isHexDigit (c : Char) : Bool :=
  (48 ≤ c.toNat && c.toNat ≤ 57) ||
  (97 ≤ c.toNat && c.toNat ≤ 102) ||
  (65 ≤ c.toNat && c.toNat ≤ 70)

/-- Numeric value of a hex digit. -/
def hexVal (c : Char) : Nat :=
  if 48 ≤ c.toNat && c.toNat ≤ 57 then c.toNat - 48
  else if 97 ≤ c.toNat && c.toNat ≤ 102 then c.toNat - 87
  else c.toNat - 55

/-- `pairHex l` holds when `l` starts with two hex digits, i.e. a `%` put
in front of `l` would be consumed as a percent escape. -/
def pairHex : List Char → Bool
  | a :: b :: _ => isHexDigit a && isHexDigit b
  | _ => false

/-- Worker for the percent decoder; `fuel` only ensures structural
recursion, any `fuel ≥ l.length` yields the untruncated decode since each
step consumes at least one character. -/
def unquoteGo : Nat → List Char → List Char
  | 0, l => l
  | _ + 1, [] => []
  | fuel + 1, c :: rest =>
      if c = '%' then
        match rest with
        | a :: b :: rest2 =>
            if isHexDigit a && isHexDigit b then
              Char.ofNat (16 * hexVal a + hexVal b) :: unquoteGo fuel rest2
            else
              c :: unquoteGo fuel rest
        | _ => c :: unquoteGo fuel rest
      else
        c :: unquoteGo fuel rest

/-- `urllib.parse.unquote` on the character list: a `%` followed by two hex
digits decodes to the character with that code, any other character is
passed through, and a `%` not followed by two hex digits stays literal.
This model decodes each escape directly to its code point; it coincides
with Python's `unquote` (which assembles consecutive escape bytes and
UTF-8-decodes them) whenever every escape value is below `0x80` — which
holds for every escape `sanitize_b2_path` emits (values `≤ 0x7F`). -/
def unquoteChars (l : List Char) : List Char := unquoteGo l.length l

/-- The download pipeline's desanitizer (`urllib.parse.unquote`) on
strings. -/
def unquote (s : String) : String :=
  ⟨unquoteChars s.data⟩

/-- `hasEscape l` holds when `l` contains a percent-escape lookalike: a `%`
followed by two hex digits.  These are exactly the substrings that
`urllib.parse.unquote` rewrites even when `sanitize_b2_path` left them
untouched. -/
def hasEscape : List Char → Bool
  | [] => false
  | c :: rest => (c == '%' && pairHex rest) || hasEscape rest

/-! ### Pointer protocol (`create_pointer_content`) -/

/-- A JSON value as used in the pointer object (strings and integers
only). -/
inductive JsonVal where
  | str (s : String)
  | num (n : Nat)
  deriving DecidableEq

/-- `create_pointer_content`: the JSON object written to a pointer file,
as the ordered field list of the Python dict.  The current UTC time
(`datetime.now(timezone.utc).isoformat()`, an ISO-8601 UTC timestamp) is
passed in as `now_utc` since it is read from the clock. -/
def create_pointer_content (original_hash original_path now_utc : String) :
    List (String × JsonVal) :=
  [("type", .str "b2_dedup_pointer"),
   ("version", .num 1),
   ("original_hash", .str original_hash),
   ("original_path", .str original_path),
   ("pointer_created", .str now_utc)]

/-- Field lookup in a JSON object. -/
def jsonField (obj : List (String × JsonVal)) (k : String) : Option JsonVal :=
  (obj.find? (·.1 == k)).map (·.2)

/-! ### Dedup index and the per-file upload decision procedure
(`process_file`)

The SQLite `files` table is modelled as a list of rows; the remote object
store as the list of keys that exist.  Metadata columns
(timestamps/MIME/category, filled from `get_file_metadata` and
`datetime.now`) are opaque payload that no branch of `process_file` reads,
so they are omitted from the row.  Hashing (`sha256_file`, modelled
separately below) is given as an attribute of the input file. -/

def POINTER_EXTENSION : String := ".b2ptr"

/-- One row of the `files` table. -/
structure FileRecord where
  hash : String
  size : Nat
  drive_name : String
  file_path : String
  upload_path : Option String
  is_original : Bool
  deriving DecidableEq

/-- One source file handed to `process_file`: its drive, its relative
path from the drive root (`rel_path.as_posix()`), and its hashing result
`(file_hash, actual_size)`. -/
structure UpFile where
  drive_name : String
  rel_path : String
  hash : String
  size : Nat
  deriving DecidableEq

/-- Shared state touched by `process_file`: the index and the set of
remote keys. -/
structure UpState where
  db : List FileRecord
  remote : List String
  deriving DecidableEq

/-- The status strings returned by `process_file` (`exists_` stands for
the Python status string `"exists"`, a keyword in Lean). -/
inductive UpOutcome where
  | already_tracked
  | duplicate_recorded
  | pointer_exists
  | would_create_pointer
  | pointer_created
  | scanned
  | exists_
  | would_upload
  | race_duplicate
  | uploaded
  deriving DecidableEq

/-- `remote_name = sanitize_b2_path(f"{drive_name}/{rel_path.as_posix()}")`. -/
def remote_name (f : UpFile) : String :=
  sanitize_b2_path (f.drive_name ++ "/" ++ f.rel_path)

/-- `SELECT id FROM files WHERE drive_name = ? AND file_path = ?`. -/
def lookup_by_path (db : List FileRecord) (drive path : String) : Option FileRecord :=
  db.find? fun r => r.drive_name == drive && r.file_path == path

/-- `SELECT upload_path FROM files WHERE hash = ? AND is_original = 1 LIMIT 1`. -/
def lookup_original_by_hash (db : List FileRecord) (h : String) : Option FileRecord :=
  db.find? fun r => r.hash == h && r.is_original

/-- `INSERT OR IGNORE` keyed by the `UNIQUE(drive_name, file_path)`
constraint: returns the new table and whether a row was actually inserted
(`cursor.rowcount` = 1). -/
def insert_or_ignore (db : List FileRecord) (r : FileRecord) : List FileRecord × Bool :=
  if (lookup_by_path db r.drive_name r.file_path).isSome then (db, false)
  else (db ++ [r], true)

/-- The non-original row inserted for a duplicate: `upload_path` NULL,
`is_original` 0. -/
def dupRecord (f : UpFile) : FileRecord :=
  { hash := f.hash, size := f.size, drive_name := f.drive_name,
    file_path := f.rel_path, upload_path := none, is_original := false }

/-- The original row: `is_original` 1, `upload_path` as given (NULL in
scan-only mode, the remote key otherwise). -/
def origRecord (f : UpFile) (upload : Option String) : FileRecord :=
  { hash := f.hash, size := f.size, drive_name := f.drive_name,
    file_path := f.rel_path, upload_path := upload, is_original := true }

/-- The per-file decision procedure of `process_file`, as a pure state
transformer.  Remote reads are `List.contains` on the key set
(`b2.file_exists`); remote writes append the key (`b2.upload_bytes` /
`b2.upload_file`); the pointer bytes themselves
(`create_pointer_content`) do not influence any later upload decision and
are modelled by the key alone. -/
def process_file (scan_only dry_run : Bool) (s : UpState) (f : UpFile) :
    UpOutcome × UpState :=
  let rname := remote_name f
  if (lookup_by_path s.db f.drive_name f.rel_path).isSome then
    (.already_tracked, s)
  else
    match lookup_original_by_hash s.db f.hash with
    | some _ =>
        -- duplicate: an original for this hash exists
        if scan_only then
          (.duplicate_recorded, { s with db := (insert_or_ignore s.db (dupRecord f)).1 })
        else
          let pointer_remote_path := rname ++ POINTER_EXTENSION
          if s.remote.contains pointer_remote_path then
            (.pointer_exists, { s with db := (insert_or_ignore s.db (dupRecord f)).1 })
          else if dry_run then
            (.would_create_pointer, s)
          else
            (.pointer_created,
              { db := (insert_or_ignore s.db (dupRecord f)).1,
                remote := s.remote ++ [pointer_remote_path] })
    | none =>
        -- new unique content
        if scan_only then
          (.scanned, { s with db := (insert_or_ignore s.db (origRecord f none)).1 })
        else if s.remote.contains rname then
          (.exists_, { s with db := (insert_or_ignore s.db (origRecord f (some rname))).1 })
        else if dry_run then
          (.would_upload, s)
        else
          let ins := insert_or_ignore s.db (origRecord f (some rname))
          if ins.2 then
            (.uploaded, { db := ins.1, remote := s.remote ++ [rname] })
          else
            (.race_duplicate, { db := ins.1, remote := s.remote ++ [rname] })

/-- A sequential upload run: `process_file` over the discovered files in
order, collecting the per-file outcomes. -/
def runUpload (scan_only dry_run : Bool) : UpState → List UpFile → List UpOutcome × UpState
  | s, [] => ([], s)
  | s, f :: fs =>
      let step := process_file scan_only dry_run s f
      let rest := runUpload scan_only dry_run step.2 fs
      (step.1 :: rest.1, rest.2)

/-- Number of rows for hash `h` with `is_original = 1`. -/
def countOriginals (db : List FileRecord) (h : String) : Nat :=
  (db.filter fun r => r.hash == h && r.is_original).length

/-! ### Download/restore pipeline (`download_action` / `download_file`)

The remote store is an oracle `store : String → List Nat` mapping each
key to its bytes (`b2.download_file_content` and
`b2.download_file_to_path`); `decodePtr` is the composite
`json.loads(...)['original_path']`, returning `none` when the payload is
malformed or lacks the field (the raised exception is caught by the
per-object handler).  The state carries the `original_cache` dict, the
ordered log of remote fetches, and the local files written (destination
path relative to `dest_path`, bytes). -/

/-- Outcome statuses of `download_file`; `pointer_resolved` records
whether the bytes came from the cache (the `"(cached)"` extra). -/
inductive DlOutcome where
  | downloaded
  | pointer_resolved (cached : Bool)
  | would_download
  | error
  deriving DecidableEq

/-- Download-side state. -/
structure DlState where
  original_cache : List (String × List Nat)
  fetched : List String
  written : List (String × List Nat)
  deriving DecidableEq

/-- `str.endswith(t)`, on the character list so that it stays
kernel-computable. -/
def strEndsWith (s t : String) : Bool := t.data.isSuffixOf s.data

/-- `str.startswith(t)`. -/
def strStartsWith (s t : String) : Bool := t.data.isPrefixOf s.data

/-- `s[k:]`. -/
def strDrop (s : String) (k : Nat) : String := ⟨s.data.drop k⟩

/-- `s[:-k]`. -/
def strDropRight (s : String) (k : Nat) : String := ⟨s.data.take (s.data.length - k)⟩

/-- `original_path in original_cache` / `original_cache[original_path]`. -/
def lookupCache (cache : List (String × List Nat)) (k : String) : Option (List Nat) :=
  (cache.find? (·.1 == k)).map (·.2)

/-- The destination-relative path of a listed object: strip the remote
prefix when present, then `urllib.parse.unquote`. -/
def dl_rel_path (rpfx name : String) : String :=
  unquote (if rpfx ≠ "" ∧ strStartsWith name rpfx then strDrop name rpfx.length else name)

/-- `download_file` for one listed object, as a pure state transformer. -/
def download_file (store : String → List Nat) (decodePtr : List Nat → Option String)
    (dry_run : Bool) (rpfx : String) (s : DlState) (name : String) :
    DlOutcome × DlState :=
  let rel_path := dl_rel_path rpfx name
  if strEndsWith name POINTER_EXTENSION then
    let actual_rel_path := strDropRight rel_path POINTER_EXTENSION.length
    if dry_run then
      (.would_download, s)
    else
      -- download and parse the pointer
      let s1 := { s with fetched := s.fetched ++ [name] }
      match decodePtr (store name) with
      | none => (.error, s1)
      | some original_path =>
          match lookupCache s1.original_cache original_path with
          | some cached_content =>
              -- cache hit: copy from cache, no extra remote fetch
              (.pointer_resolved true,
                { s1 with written := s1.written ++ [(actual_rel_path, cached_content)] })
          | none =>
              -- cache miss: fetch the original once, populate, write
              (.pointer_resolved false,
                { original_cache := s1.original_cache ++ [(original_path, store original_path)],
                  fetched := s1.fetched ++ [original_path],
                  written := s1.written ++ [(actual_rel_path, store original_path)] })
  else
    if dry_run then
      (.would_download, s)
    else
      (.downloaded,
        { s with
            fetched := s.fetched ++ [name],
            written := s.written ++ [(rel_path, store name)] })

/-- A sequential download run over the listed objects, collecting one
outcome per object. -/
def runDownload (store : String → List Nat) (decodePtr : List Nat → Option String)
    (dry_run : Bool) (rpfx : String) : DlState → List String → List DlOutcome × DlState
  | s, [] => ([], s)
  | s, n :: ns =>
      let step := download_file store decodePtr dry_run rpfx s n
      let rest := runDownload store decodePtr dry_run rpfx step.2 ns
      (step.1 :: rest.1, rest.2)

/-! ### Content hasher (`sha256_file`) retry loop -/

/-- The outcome of one streaming-hash attempt over the file: success with
`(sha256.hexdigest(), size)`, an `OSError` with `errno == errno.EIO`
(transient), or any other `OSError`. -/
inductive HashAttempt where
  | ok (digest : String) (size : Nat)
  | eio
  | osError
  deriving DecidableEq

/-- The exception propagated out of `sha256_file`. -/
inductive HashError where
  | eio
  | osError
  deriving DecidableEq

/-- The retry loop of `sha256_file` with `max_retries = 3`.  `att` gives
the outcome of each attempt (numbered from 0); the returned list is the
`time.sleep` durations `0.5 * (attempt + 1)` seconds, recorded in units
of half seconds (`attempt + 1`) to stay in `Nat`.  The loop
counter is encoded by the remaining attempt count
`remaining = max_retries - attempt`, so the Python guard
`attempt < max_retries - 1` is `remaining > 1`, i.e. `rem + 1 > 1`;
`remaining = 0` is never reached from `max_retries = 3`. -/
def sha256Go (att : Nat → HashAttempt) :
    Nat → Nat → List Nat → Except HashError (String × Nat) × List Nat
  | 0, _, sleeps => (.error .eio, sleeps)
  | rem + 1, attempt, sleeps =>
      match att attempt with
      | .ok d sz => (.ok (d, sz), sleeps)
      | .eio =>
          if 0 < rem then
            sha256Go att rem (attempt + 1) (sleeps ++ [attempt + 1])
          else
            (.error .eio, sleeps)
      | .osError => (.error .osError, sleeps)

/-- `sha256_file`: up to 3 attempts starting at attempt 0 with no sleeps
taken yet. -/
def sha256_file (att : Nat → HashAttempt) : Except HashError (String × Nat) × List Nat :=
  sha256Go att 3 0 []

/-! ### Upload admission control (the scheduling loop of `upload_action`)

`max_in_flight = args.workers * 2`.  The initial fill submits tasks one
at a time and breaks as soon as `len(pending) >= max_in_flight`; the
refill loop waits for `FIRST_COMPLETED`, then submits at most one new
task per completed future (none once the file iterator is exhausted).
Completion concurrency is abstracted by a schedule: the number of
futures returned by each `wait` call. -/

/-- Pending-set size after the initial fill over `n` files: the break
check follows the add, so at least one task is admitted when files
exist, and never more than `max(max_in_flight, 1)` nor than `n`. -/
def initialFill (max_in_flight n : Nat) : Nat :=
  min n (max max_in_flight 1)

/-- One refill round with `p` pending, `remaining` files not yet
submitted, and `d` futures completed by `wait`: each completed future
admits at most one new task.  Returns (new pending, new remaining,
number admitted). -/
def schedStep (p remaining d : Nat) : Nat × Nat × Nat :=
  (p - d + min d remaining, remaining - min d remaining, min d remaining)

/-- A schedule is valid when every `wait` round returns at least one and
at most all of the currently pending futures. -/
def isValidSched : Nat → Nat → List Nat → Bool
  | _, _, [] => true
  | p, r, d :: ds =>
      1 ≤ d && d ≤ p && isValidSched (schedStep p r d).1 (schedStep p r d).2.1 ds

/-- Worker collecting the pending-set size after every refill round. -/
def pendingAfter : Nat → Nat → List Nat → List Nat
  | _, _, [] => []
  | p, r, d :: ds =>
      (schedStep p r d).1 :: pendingAfter (schedStep p r d).1 (schedStep p r d).2.1 ds

/-- All pending-set sizes over a run with `w` workers and `n` source
files: after the initial fill and after each refill round. -/
def pendingTrace (w n : Nat) (sched : List Nat) : List Nat :=
  initialFill (w * 2) n :: pendingAfter (initialFill (w * 2) n) (n - initialFill (w * 2) n) sched

theorem isHexDigit_hexDigitChar {n : Nat} (h : n < 16) : isHexDigit (hexDigitChar n) = true := by
  interval_cases n <;> decide

theorem hexVal_hexDigitChar {n : Nat} (h : n < 16) : hexVal (hexDigitChar n) = n := by
  interval_cases n <;> decide

theorem isHexDigit_percent : isHexDigit '%' = false := by decide

theorem unquoteGo_percent_literal {rest : List Char} {f : Nat} (h : pairHex rest = false) :
    unquoteGo (f + 1) ('%' :: rest) = '%' :: unquoteGo f rest := by
  match rest with
  | [] => simp [unquoteGo]
  | [a] => simp [unquoteGo]
  | a :: b :: t2 =>
      simp only [pairHex] at h
      simp [unquoteGo, h]

/-- Sanitized output never starts with a decodable hex pair unless the
source itself did: key step for reversibility. -/
theorem pairHex_sanitize {rest : List Char} (h : pairHex rest = false) :
    pairHex (sanitizeChars rest) = false := by
  match rest with
  | [] => rfl
  | d :: r2 =>
      by_cases hd : isB2Control d
      · simp [sanitizeChars, hd, pairHex, isHexDigit_percent]
      · simp only [sanitizeChars, hd, Bool.false_eq_true, if_false]
        match r2 with
        | [] => rfl
        | e :: r3 =>
            by_cases he : isB2Control e
            · simp [sanitizeChars, he, pairHex, isHexDigit_percent]
            · simp only [sanitizeChars, he, Bool.false_eq_true, if_false]
              simpa [pairHex] using h

theorem unquoteGo_sanitizeChars (l : List Char) : ∀ f, hasEscape l = false →
    (sanitizeChars l).length ≤ f → unquoteGo f (sanitizeChars l) = l := by
  induction l with
  | nil => intro f _ _; cases f <;> simp [sanitizeChars, unquoteGo]
  | cons c rest ih =>
    intro f hesc hlen
    have hparts : ((c == '%') && pairHex rest) = false ∧ hasEscape rest = false := by
      simpa only [hasEscape, Bool.or_eq_false_iff] using hesc
    by_cases hc : isB2Control c
    · -- control character: sanitize emits a three-character escape
      have hc1 : c.toNat / 16 < 16 := by
        have : c.toNat ≤ 0x7f := by
          simp only [isB2Control, Bool.or_eq_true, decide_eq_true_eq] at hc
          omega
        omega
      have hc2 : c.toNat % 16 < 16 := Nat.mod_lt _ (by omega)
      simp only [sanitizeChars, hc, if_true] at hlen ⊢
      obtain ⟨f', rfl⟩ : ∃ f', f = f' + 1 := by
        cases f with
        | zero => simp at hlen
        | succ k => exact ⟨k, rfl⟩
      simp only [unquoteGo, if_pos rfl, isHexDigit_hexDigitChar hc1,
        isHexDigit_hexDigitChar hc2, Bool.and_self, if_true,
        hexVal_hexDigitChar hc1, hexVal_hexDigitChar hc2]
      rw [Nat.div_add_mod, Char.ofNat_toNat]
      exact congrArg (c :: ·) (ih f' hparts.2 (by simp at hlen; omega))
    · -- clean character: passed through unchanged
      simp only [sanitizeChars, hc, Bool.false_eq_true, if_false] at hlen ⊢
      obtain ⟨f', rfl⟩ : ∃ f', f = f' + 1 := by
        cases f with
        | zero => simp at hlen
        | succ k => exact ⟨k, rfl⟩
      by_cases hp : c = '%'
      · subst hp
        have hrest : pairHex rest = false := by
          simpa using hparts.1
        rw [unquoteGo_percent_literal (pairHex_sanitize hrest)]
        exact congrArg ('%' :: ·) (ih f' hparts.2 (by simp at hlen; omega))
      · simp only [unquoteGo, hp, if_false]
        exact congrArg (c :: ·) (ih f' hparts.2 (by simp at hlen; omega))

theorem sanitizeChars_clean {l : List Char} (h : ∀ c ∈ l, isB2Control c = false) :
    sanitizeChars l = l := by
  induction l with
  | nil => rfl
  | cons c rest ih =>
      simp [sanitizeChars, h c (List.mem_cons_self c rest),
        ih fun d hd => h d (List.mem_cons_of_mem c hd)]

/-- C1 (counterexample): the round trip is not the identity on every
path.  The path `"%41"` contains no control byte, so `sanitize_b2_path`
leaves it unchanged, but the download pipeline's `urllib.parse.unquote`
decodes it to `"A"`. -/
theorem sanitize_roundtrip_counterexample :
    ¬ (unquote (sanitize_b2_path "%41") = "%41") := by decide

/-- C1 (amended): for every relative path string containing no
percent-escape lookalike (a `%` followed by two hex digits) — in
particular every path whose only special content is control bytes
`0x00`–`0x1F` and `0x7F` — percent-decoding the sanitized key recovers
exactly the original path: `unquote (sanitize_b2_path p) = p`. -/
theorem sanitize_unquote_roundtrip (s : String) (h : hasEscape s.data = false) :
    unquote (sanitize_b2_path s) = s := by
  show String.mk (unquoteGo (sanitizeChars s.data).length (sanitizeChars s.data)) = s
  rw [unquoteGo_sanitizeChars s.data (sanitizeChars s.data).length h (Nat.le_refl _)]

/-- Witness for C1 on a concrete path containing the control bytes `0x01`
and `0x7F`. -/
theorem sanitize_unquote_roundtrip_witness :
    hasEscape "a\x01b/c\x7f.txt".data = false ∧
      unquote (sanitize_b2_path "a\x01b/c\x7f.txt") = "a\x01b/c\x7f.txt" :=
  ⟨by decide, sanitize_unquote_roundtrip "a\x01b/c\x7f.txt" (by decide)⟩

/-- C10: `sanitize_b2_path` is the identity on every path containing no
byte in `0x00`–`0x1F` and no `0x7F`; percent signs and all other printable
characters pass through unmodified. -/
theorem sanitize_identity_on_clean (s : String)
    (h : ∀ c ∈ s.data, ¬(c.toNat ≤ 0x1f ∨ c.toNat = 0x7f)) :
    sanitize_b2_path s = s := by
  have h' : ∀ c ∈ s.data, isB2Control c = false := by
    intro c hc
    have hn := h c hc
    push_neg at hn
    simp only [isB2Control, Bool.or_eq_false_iff, decide_eq_false_iff_not]
    omega
  show String.mk (sanitizeChars s.data) = s
  rw [sanitizeChars_clean h']

/-- Witness for C10 on a printable path containing a percent sign. -/
theorem sanitize_identity_on_clean_witness :
    (∀ c ∈ "Drive/a b 100%.txt".data, ¬(c.toNat ≤ 0x1f ∨ c.toNat = 0x7f)) ∧
      sanitize_b2_path "Drive/a b 100%.txt" = "Drive/a b 100%.txt" :=
  ⟨by decide, sanitize_identity_on_clean "Drive/a b 100%.txt" (by decide)⟩

theorem process_file_db_extends (so dr : Bool) (s : UpState) (f : UpFile) :
    ∃ t, (process_file so dr s f).2.db = s.db ++ t := by
  have hins : ∀ r : FileRecord, ∃ t, (insert_or_ignore s.db r).1 = s.db ++ t := by
    intro r
    unfold insert_or_ignore
    split
    · exact ⟨[], by simp⟩
    · exact ⟨[r], rfl⟩
  unfold process_file
  dsimp only
  repeat' split
  all_goals first | exact hins _ | exact ⟨[], by simp⟩

theorem lookup_by_path_append {db t : List FileRecord} {d p : String}
    (h : (lookup_by_path db d p).isSome) :
    (lookup_by_path (db ++ t) d p).isSome := by
  simp only [lookup_by_path, List.find?_isSome] at h ⊢
  obtain ⟨x, hx, hp⟩ := h
  exact ⟨x, List.mem_append_left _ hx, hp⟩

theorem process_file_keeps_tracked (so dr : Bool) (s : UpState) (f : UpFile) {d p : String}
    (h : (lookup_by_path s.db d p).isSome) :
    (lookup_by_path (process_file so dr s f).2.db d p).isSome := by
  obtain ⟨t, ht⟩ := process_file_db_extends so dr s f
  rw [ht]
  exact lookup_by_path_append h



theorem lookup_insert_or_ignore {s : UpState} (f : UpFile) (r : FileRecord)
    (h1 : r.drive_name = f.drive_name) (h2 : r.file_path = f.rel_path) :
    (lookup_by_path (insert_or_ignore s.db r).1 f.drive_name f.rel_path).isSome := by
  unfold insert_or_ignore
  split
  · next hfound => rw [h1, h2] at hfound; exact hfound
  · simp only [lookup_by_path, List.find?_isSome]
    exact ⟨r, List.mem_append_right _ (List.mem_singleton_self r), by simp [h1, h2]⟩

/-- In full mode every branch of `process_file` leaves a row for the
file's own (drive, path) behind. -/
theorem process_file_tracks (s : UpState) (f : UpFile) :
    (lookup_by_path (process_file false false s f).2.db f.drive_name f.rel_path).isSome := by
  by_cases htop : (lookup_by_path s.db f.drive_name f.rel_path).isSome
  · simp only [process_file, htop, if_true]
  · unfold process_file
    dsimp only
    repeat' split
    all_goals
      first
        | exact absurd (by assumption) htop
        | exact lookup_insert_or_ignore f _ rfl rfl

theorem runUpload_keeps_tracked (files : List UpFile) :
    ∀ s : UpState, ∀ {d p : String}, (lookup_by_path s.db d p).isSome →
    (lookup_by_path (runUpload false false s files).2.db d p).isSome := by
  induction files with
  | nil => intro s d p h; exact h
  | cons g gs ih =>
      intro s d p h
      simp only [runUpload]
      exact ih _ (process_file_keeps_tracked false false s g h)

theorem runUpload_tracks (files : List UpFile) :
    ∀ s : UpState, ∀ f ∈ files,
    (lookup_by_path (runUpload false false s files).2.db f.drive_name f.rel_path).isSome := by
  induction files with
  | nil => intro s f hf; exact absurd hf (List.not_mem_nil f)
  | cons g gs ih =>
      intro s f hf
      simp only [runUpload]
      rcases List.mem_cons.mp hf with rfl | hf'
      · exact runUpload_keeps_tracked gs _ (process_file_tracks s f)
      · exact ih _ f hf'

theorem process_file_tracked_noop (so dr : Bool) {s : UpState} {f : UpFile}
    (h : (lookup_by_path s.db f.drive_name f.rel_path).isSome) :
    process_file so dr s f = (.already_tracked, s) := by
  simp [process_file, h]

theorem runUpload_all_tracked (files : List UpFile) {s : UpState}
    (h : ∀ f ∈ files, (lookup_by_path s.db f.drive_name f.rel_path).isSome) :
    runUpload false false s files = (files.map fun _ => .already_tracked, s) := by
  induction files with
  | nil => rfl
  | cons g gs ih =>
      simp only [runUpload, process_file_tracked_noop false false (h g (List.mem_cons_self g gs)),
        List.map_cons]
      rw [ih fun f hf => h f (List.mem_cons_of_mem g hf)]



/-- C3: idempotence of upload. -/
theorem upload_idempotent (files : List UpFile) (s0 : UpState) :
    ((runUpload false false (runUpload false false s0 files).2 files).1.count .uploaded = 0 ∧
     (runUpload false false (runUpload false false s0 files).2 files).1.count .pointer_created = 0) ∧
    ∀ o ∈ (runUpload false false (runUpload false false s0 files).2 files).1,
      o = .already_tracked ∨ o = .exists_ ∨ o = .pointer_exists := by
  rw [runUpload_all_tracked files (runUpload_tracks files s0)]
  constructor
  · constructor <;> (rw [List.count_eq_zero] ; simp [List.mem_replicate])
  · intro o ho
    simp only [List.mem_map] at ho
    obtain ⟨f, _, rfl⟩ := ho
    exact Or.inl rfl


/-- C4 (counterexample): dry-run does not leave the index unchanged in
every branch: when the hash already has an original and the pointer
object already exists remotely, `process_file` inserts a row and commits
even with the dry-run flag set. -/
theorem dry_run_counterexample :
    ¬ ((process_file false true
        ⟨[⟨"h", 1, "D", "a", some "D/a", true⟩], ["D/b" ++ POINTER_EXTENSION]⟩
        ⟨"D", "b", "h", 1⟩).2.db =
      [⟨"h", 1, "D", "a", some "D/a", true⟩]) := by decide

/-- C4 (amended): with the dry-run flag set (full mode), `process_file`
performs no remote mutation in any branch; and except in the two resumed
branches whose outcome is `pointer_exists` or `exists_` (remote object
already present, where a row is still inserted), the index is also left
unchanged. -/
theorem dry_run_no_remote_mutation (s : UpState) (f : UpFile) :
    (process_file false true s f).2.remote = s.remote ∧
      ((process_file false true s f).1 ≠ .pointer_exists ∧
        (process_file false true s f).1 ≠ .exists_ →
        (process_file false true s f).2 = s) := by
  by_cases htop : (lookup_by_path s.db f.drive_name f.rel_path).isSome
  · simp [process_file, htop]
  · cases hlo : lookup_original_by_hash s.db f.hash with
    | some r =>
        by_cases hptr : remote_name f ++ POINTER_EXTENSION ∈ s.remote <;>
          simp [process_file, htop, hlo, hptr]
    | none =>
        by_cases hrem : remote_name f ∈ s.remote <;>
          simp [process_file, htop, hlo, hrem]

/-- Witness for C4 on a fresh state, where the dry-run branch is
`would_upload` and the state is untouched. -/
theorem dry_run_no_mutation_witness :
    (process_file false true ⟨[], []⟩ ⟨"D", "b", "h", 1⟩).2 = (⟨[], []⟩ : UpState) :=
  (dry_run_no_remote_mutation ⟨[], []⟩ ⟨"D", "b", "h", 1⟩).2 (by decide)



/-- C5 (counterexample): the `type` field of the pointer artifact is the
string `"b2_dedup_pointer"`, not `"dedup_pointer"`. -/
theorem pointer_type_counterexample :
    ¬ (jsonField (create_pointer_content "h" "p" "t") "type" =
        some (.str "dedup_pointer")) := by decide

/-- C5 (amended): for every (original hash, original remote key, creation
time), the encoded PointerArtifact is a JSON object whose `type` field
equals `"b2_dedup_pointer"`, whose `version` field equals `1`, and which
carries the original hash under `original_hash`, the original remote key
under `original_path`, and the creation timestamp
(`datetime.now(timezone.utc).isoformat()`, ISO-8601 UTC) under
`pointer_created`. -/
theorem pointer_artifact_format (oh op ts : String) :
    jsonField (create_pointer_content oh op ts) "type" = some (.str "b2_dedup_pointer") ∧
    jsonField (create_pointer_content oh op ts) "version" = some (.num 1) ∧
    jsonField (create_pointer_content oh op ts) "original_hash" = some (.str oh) ∧
    jsonField (create_pointer_content oh op ts) "original_path" = some (.str op) ∧
    jsonField (create_pointer_content oh op ts) "pointer_created" = some (.str ts) :=
  ⟨rfl, rfl, rfl, rfl, rfl⟩



/-- C7: the hasher retry contract of `sha256_file`: when every attempt
fails with a transient `EIO`, the failure propagates only after 3
attempts, with linearly increasing backoff sleeps `[0.5 s, 1.0 s]` (in
half-second units `[1, 2]`); when
attempt `i < 3` succeeds after `i` transient failures, the digest/size
pair is returned with the `i` backoff sleeps taken so far. -/
theorem sha256_retry_contract (att : Nat → HashAttempt) :
    ((∀ i, i < 3 → att i = .eio) →
        sha256_file att = (.error .eio, [1, 2])) ∧
    (∀ d sz i, i < 3 → (∀ j, j < i → att j = .eio) → att i = .ok d sz →
        sha256_file att =
          (.ok (d, sz), (List.range i).map fun k => k + 1)) := by
  constructor
  · intro h
    have h0 := h 0 (by omega)
    have h1 := h 1 (by omega)
    have h2 := h 2 (by omega)
    simp [sha256_file, sha256Go, h0, h1, h2]
  · intro d sz i hi hj hok
    interval_cases i
    · simp [sha256_file, sha256Go, hok]
    · have h0 := hj 0 (by omega)
      simp [sha256_file, sha256Go, h0, hok]
      decide
    · have h0 := hj 0 (by omega)
      have h1 := hj 1 (by omega)
      simp [sha256_file, sha256Go, h0, h1, hok]
      decide

/-- Witness for C7: all three attempts fail transiently. -/
theorem sha256_retry_witness :
    sha256_file (fun _ => .eio) = (.error .eio, [1, 2]) :=
  (sha256_retry_contract fun _ => .eio).1 fun _ _ => rfl



theorem download_file_pointer_first
    {store : String → List Nat} {decodePtr : List Nat → Option String}
    {rpfx R : String} {s : DlState} {n : String}
    (hp : strEndsWith n POINTER_EXTENSION = true)
    (hd : decodePtr (store n) = some R)
    (hc : lookupCache s.original_cache R = none) :
    download_file store decodePtr false rpfx s n =
      (.pointer_resolved false,
        { original_cache := s.original_cache ++ [(R, store R)],
          fetched := (s.fetched ++ [n]) ++ [R],
          written := s.written ++
            [(strDropRight (dl_rel_path rpfx n) POINTER_EXTENSION.length, store R)] }) := by
  simp [download_file, hp, hd, hc]

theorem download_file_pointer_cached
    {store : String → List Nat} {decodePtr : List Nat → Option String}
    {rpfx R : String} {s : DlState} {n : String} {content : List Nat}
    (hp : strEndsWith n POINTER_EXTENSION = true)
    (hd : decodePtr (store n) = some R)
    (hc : lookupCache s.original_cache R = some content) :
    download_file store decodePtr false rpfx s n =
      (.pointer_resolved true,
        { s with
            fetched := s.fetched ++ [n],
            written := s.written ++
              [(strDropRight (dl_rel_path rpfx n) POINTER_EXTENSION.length, content)] }) := by
  simp [download_file, hp, hd, hc]



theorem runDownload_cached {store : String → List Nat} {decodePtr : List Nat → Option String}
    {rpfx R : String} (names : List String)
    (hptr : ∀ n ∈ names, strEndsWith n POINTER_EXTENSION = true)
    (hdec : ∀ n ∈ names, decodePtr (store n) = some R)
    (hnR : ∀ n ∈ names, n ≠ R) :
    ∀ s : DlState, lookupCache s.original_cache R = some (store R) →
      (runDownload store decodePtr false rpfx s names).1 =
        names.map (fun _ => .pointer_resolved true) ∧
      (runDownload store decodePtr false rpfx s names).2.fetched.count R =
        s.fetched.count R ∧
      (runDownload store decodePtr false rpfx s names).2.original_cache =
        s.original_cache ∧
      ∃ extra, (runDownload store decodePtr false rpfx s names).2.written =
        s.written ++ extra ∧ ∀ w ∈ extra, w.2 = store R := by
  induction names with
  | nil =>
      intro s hs
      exact ⟨rfl, rfl, rfl, [], by simp [runDownload], by simp⟩
  | cons n rest ih =>
      intro s hs
      have hstep := @download_file_pointer_cached store decodePtr rpfx R s n (store R)
        (hptr n (List.mem_cons_self n rest)) (hdec n (List.mem_cons_self n rest)) hs
      have hrest := ih (fun x hx => hptr x (List.mem_cons_of_mem n hx))
        (fun x hx => hdec x (List.mem_cons_of_mem n hx))
        (fun x hx => hnR x (List.mem_cons_of_mem n hx))
        { s with
            fetched := s.fetched ++ [n],
            written := s.written ++
              [(strDropRight (dl_rel_path rpfx n) POINTER_EXTENSION.length, store R)] }
        hs
      simp only [runDownload, hstep]
      refine ⟨by simp [hrest.1], ?_, hrest.2.2.1, ?_⟩
      · rw [hrest.2.1]
        simp [List.count_append, List.count_cons, hnR n (List.mem_cons_self n rest)]
      · obtain ⟨extra, hw, hall⟩ := hrest.2.2.2
        refine ⟨(strDropRight (dl_rel_path rpfx n) POINTER_EXTENSION.length, store R) :: extra,
          by simpa using hw, ?_⟩
        intro w hw2
        rcases List.mem_cons.mp hw2 with rfl | hmem
        · rfl
        · exact hall w hmem



theorem count_resolved_replicate (k : Nat) :
    (List.replicate k (DlOutcome.pointer_resolved true)).count (DlOutcome.pointer_resolved true) = k := by
  induction k with
  | zero => rfl
  | succ m ih => simp [List.replicate_succ, List.count_cons, ih]

/-- C6: fetch deduplication on download.  A run over K pointer objects
that all resolve to the same original remote key `R` (and none of which
is itself named `R`) performs exactly one remote fetch of `R`; the other
K−1 resolutions are reported as served from the cache; and every file
written carries the bytes of `R`. -/
theorem fetch_deduplication (store : String → List Nat) (decodePtr : List Nat → Option String)
    (rpfx R : String) (names : List String)
    (hne : names ≠ [])
    (hptr : ∀ n ∈ names, strEndsWith n POINTER_EXTENSION = true)
    (hdec : ∀ n ∈ names, decodePtr (store n) = some R)
    (hnR : ∀ n ∈ names, n ≠ R) :
    (runDownload store decodePtr false rpfx ⟨[], [], []⟩ names).2.fetched.count R = 1 ∧
    (runDownload store decodePtr false rpfx ⟨[], [], []⟩ names).1.count
        (.pointer_resolved true) = names.length - 1 ∧
    ∀ w ∈ (runDownload store decodePtr false rpfx ⟨[], [], []⟩ names).2.written,
      w.2 = store R := by
  cases names with
  | nil => exact absurd rfl hne
  | cons n rest =>
      have hstep := @download_file_pointer_first store decodePtr rpfx R ⟨[], [], []⟩ n
        (hptr n (List.mem_cons_self n rest)) (hdec n (List.mem_cons_self n rest)) rfl
      have hcache : lookupCache [(R, store R)] R = some (store R) := by simp [lookupCache]
      have hrest := @runDownload_cached store decodePtr rpfx R rest
        (fun x hx => hptr x (List.mem_cons_of_mem n hx))
        (fun x hx => hdec x (List.mem_cons_of_mem n hx))
        (fun x hx => hnR x (List.mem_cons_of_mem n hx))
        ⟨[(R, store R)], [n, R],
          [(strDropRight (dl_rel_path rpfx n) POINTER_EXTENSION.length, store R)]⟩
        hcache
      simp only [runDownload, hstep]
      simp only [List.nil_append, List.singleton_append]
      obtain ⟨extra, hw, hall⟩ := hrest.2.2.2
      refine ⟨?_, ?_, ?_⟩
      · have := hrest.2.1
        rw [this]
        simp [List.count_cons, hnR n (List.mem_cons_self n rest)]
      · simp [hrest.1, List.count_cons, count_resolved_replicate]
      · intro w hw2
        simp only [List.nil_append, List.singleton_append] at hw
        rw [hw] at hw2
        rcases List.mem_cons.mp hw2 with rfl | hmem
        · rfl
        · exact hall w hmem



/-- Witness for C6: three pointer objects resolving to one original. -/
theorem fetch_deduplication_witness :
    ((runDownload (fun k => if k = "D/o" then [7, 7] else [1])
        (fun c => if c = [1] then some "D/o" else none) false "D/"
        ⟨[], [], []⟩ ["D/a.b2ptr", "D/b.b2ptr", "D/c.b2ptr"]).2.fetched.count "D/o" = 1) ∧
    ((runDownload (fun k => if k = "D/o" then [7, 7] else [1])
        (fun c => if c = [1] then some "D/o" else none) false "D/"
        ⟨[], [], []⟩ ["D/a.b2ptr", "D/b.b2ptr", "D/c.b2ptr"]).1.count
          (.pointer_resolved true) = ["D/a.b2ptr", "D/b.b2ptr", "D/c.b2ptr"].length - 1) ∧
    ∀ w ∈ (runDownload (fun k => if k = "D/o" then [7, 7] else [1])
        (fun c => if c = [1] then some "D/o" else none) false "D/"
        ⟨[], [], []⟩ ["D/a.b2ptr", "D/b.b2ptr", "D/c.b2ptr"]).2.written,
      w.2 = (fun k : String => if k = "D/o" then [7, 7] else [1]) "D/o" :=
  fetch_deduplication (fun k => if k = "D/o" then [7, 7] else [1])
    (fun c => if c = [1] then some "D/o" else none) "D/" "D/o"
    ["D/a.b2ptr", "D/b.b2ptr", "D/c.b2ptr"]
    (by decide) (by decide) (by decide) (by decide)



theorem runDownload_length (store : String → List Nat) (decodePtr : List Nat → Option String)
    (dry_run : Bool) (rpfx : String) :
    ∀ (names : List String) (s : DlState),
      (runDownload store decodePtr dry_run rpfx s names).1.length = names.length := by
  intro names
  induction names with
  | nil => intro s; rfl
  | cons n ns ih => intro s; simp [runDownload, ih]

/-- C8: per-object failure isolation on download.  Every listed object
yields exactly one outcome; a malformed pointer payload (the decode
raises, caught by the per-object handler) yields the `error` outcome for
that object, leaves the cache and written files untouched (only the
fetch of the bad pointer is logged), and the remaining objects are still
processed, producing one outcome each. -/
theorem download_error_isolation (store : String → List Nat)
    (decodePtr : List Nat → Option String) (rpfx : String) (m : String)
    (rest : List String) (s : DlState)
    (hm : strEndsWith m POINTER_EXTENSION = true)
    (hbad : decodePtr (store m) = none) :
    (runDownload store decodePtr false rpfx s (m :: rest)).1 =
      .error :: (runDownload store decodePtr false rpfx
        { s with fetched := s.fetched ++ [m] } rest).1 ∧
    (runDownload store decodePtr false rpfx s (m :: rest)).1.length = rest.length + 1 := by
  have hstep : download_file store decodePtr false rpfx s m =
      (.error, { s with fetched := s.fetched ++ [m] }) := by
    simp [download_file, hm, hbad]
  constructor
  · simp [runDownload, hstep]
  · simp [runDownload_length]

/-- Witness for C8: the first object is a pointer with an undecodable
payload; the second object is still downloaded. -/
theorem download_error_isolation_witness :
    (runDownload (fun _ => [9]) (fun _ => none) false "" ⟨[], [], []⟩
        ["D/x.b2ptr", "D/y"]).1 =
      .error :: (runDownload (fun _ => [9]) (fun _ => none) false ""
        ⟨[], ["D/x.b2ptr"], []⟩ ["D/y"]).1 ∧
    (runDownload (fun _ => [9]) (fun _ => none) false "" ⟨[], [], []⟩
        ["D/x.b2ptr", "D/y"]).1.length = ["D/y"].length + 1 :=
  download_error_isolation (fun _ => [9]) (fun _ => none) "" "D/x.b2ptr" ["D/y"]
    ⟨[], [], []⟩ (by decide) rfl

theorem pendingAfter_bound {w : Nat} :
    ∀ (sched : List Nat) (p r : Nat), p ≤ 2 * w → isValidSched p r sched = true →
      ∀ q ∈ pendingAfter p r sched, q ≤ 2 * w := by
  intro sched
  induction sched with
  | nil => intro p r _ _ q hq; exact absurd hq (List.not_mem_nil q)
  | cons d ds ih =>
      intro p r hp hv q hq
      simp only [isValidSched, Bool.and_eq_true, decide_eq_true_eq] at hv
      have hstep : (schedStep p r d).1 ≤ 2 * w := by
        simp only [schedStep]
        have hmin : min d r ≤ d := Nat.min_le_left d r
        omega
      rcases List.mem_cons.mp hq with rfl | hmem
      · exact hstep
      · exact ih _ _ hstep hv.2 q hmem

/-- C9: bounded in-flight invariant of the upload scheduling loop.  For
any worker count `w ≥ 1`, any number of source files, and any valid
completion schedule (each `wait` round completes between 1 and all of
the pending futures), the pending-set size never exceeds `2 * w`; and
each refill round admits at most one new task per completed future. -/
theorem bounded_in_flight (w n : Nat) (sched : List Nat) (hw : 1 ≤ w)
    (hv : isValidSched (initialFill (w * 2) n) (n - initialFill (w * 2) n) sched = true) :
    (∀ p ∈ pendingTrace w n sched, p ≤ 2 * w) ∧
    ∀ p r d, (schedStep p r d).2.2 ≤ d := by
  constructor
  · intro p hp
    have h0 : initialFill (w * 2) n ≤ 2 * w := by
      simp only [initialFill]
      omega
    rcases List.mem_cons.mp hp with rfl | hmem
    · exact h0
    · exact pendingAfter_bound sched _ _ h0 hv p hmem
  · intro p r d
    simp only [schedStep]
    exact Nat.min_le_left d r

/-- Witness for C9: two workers, ten files, three completion rounds. -/
theorem bounded_in_flight_witness :
    (∀ p ∈ pendingTrace 2 10 [3, 1, 2], p ≤ 2 * 2) ∧
    (∀ p r d, (schedStep p r d).2.2 ≤ d) :=
  bounded_in_flight 2 10 [3, 1, 2] (by decide) (by decide)



theorem countOriginals_append_dup (db : List FileRecord) (f : UpFile) (h : String) :
    countOriginals (db ++ [dupRecord f]) h = countOriginals db h := by
  simp [countOriginals, dupRecord, List.filter_append]

theorem countOriginals_append_orig (db : List FileRecord) (f : UpFile) (u : Option String)
    (hf : f.hash = h) :
    countOriginals (db ++ [origRecord f u]) h = countOriginals db h + 1 := by
  simp [countOriginals, origRecord, List.filter_append, hf]

theorem countOriginals_eq_zero {db : List FileRecord} {h : String}
    (hl : lookup_original_by_hash db h = none) : countOriginals db h = 0 := by
  simp only [lookup_original_by_hash, List.find?_eq_none] at hl
  simp only [countOriginals, List.length_eq_zero, List.filter_eq_nil_iff]
  exact hl

theorem process_file_full_count {s : UpState} {f : UpFile} {h : String}
    (hf : f.hash = h) (hcount : s.db = [] ∨ countOriginals s.db h = 1) :
    countOriginals (process_file false false s f).2.db h = 1 := by
  subst hf
  by_cases htop : (lookup_by_path s.db f.drive_name f.rel_path).isSome
  · have hne : s.db ≠ [] := by
      intro hnil
      rw [hnil] at htop
      simp [lookup_by_path] at htop
    simp only [process_file, htop, if_true]
    exact hcount.resolve_left hne
  · have hins : insert_or_ignore s.db (dupRecord f) = (s.db ++ [dupRecord f], true) := by
      simp [insert_or_ignore, dupRecord, htop]
    have hinso : ∀ u, insert_or_ignore s.db (origRecord f u) = (s.db ++ [origRecord f u], true) := by
      intro u
      simp [insert_or_ignore, origRecord, htop]
    cases hlo : lookup_original_by_hash s.db f.hash with
    | some r =>
        have h1 : countOriginals s.db f.hash = 1 := by
          rcases hcount with hnil | hone
          · rw [hnil] at hlo; simp [lookup_original_by_hash] at hlo
          · exact hone
        by_cases hptr : (s.remote.contains (remote_name f ++ POINTER_EXTENSION))
        · simp only [process_file, htop, hlo, hptr, if_false, if_true, Bool.false_eq_true, hins]
          rw [countOriginals_append_dup]
          exact h1
        · simp only [process_file, htop, hlo, hptr, if_false, if_true, Bool.false_eq_true, hins]
          rw [countOriginals_append_dup]
          exact h1
    | none =>
        have h0 : countOriginals s.db f.hash = 0 := countOriginals_eq_zero hlo
        by_cases hrem : (s.remote.contains (remote_name f))
        · simp only [process_file, htop, hlo, hrem, if_false, if_true, Bool.false_eq_true, hinso]
          rw [countOriginals_append_orig _ _ _ rfl, h0]
        · simp only [process_file, htop, hlo, hrem, if_false, if_true, Bool.false_eq_true, hinso]
          rw [countOriginals_append_orig _ _ _ rfl, h0]

theorem runUpload_full_count {h : String} (files : List UpFile) :
    ∀ s : UpState, (s.db = [] ∨ countOriginals s.db h = 1) →
    (∀ f ∈ files, f.hash = h) → files ≠ [] →
    countOriginals (runUpload false false s files).2.db h = 1 := by
  induction files with
  | nil => intro s _ _ hne; exact absurd rfl hne
  | cons f fs ih =>
      intro s hcount hh _
      have hstep := process_file_full_count (h := h) (hh f (List.mem_cons_self f fs)) hcount
      simp only [runUpload]
      cases fs with
      | nil => simpa [runUpload] using hstep
      | cons g gs =>
          exact ih _ (Or.inr hstep) (fun x hx => hh x (List.mem_cons_of_mem f hx))
            (List.cons_ne_nil g gs)

/-- C2: after a full-mode upload run, from an empty index, over any
nonempty set of files all sharing one content hash, exactly one row with
that hash has `is_original = 1` (and hence every other row with that hash
has `is_original = 0`). -/
theorem single_original_invariant (files : List UpFile) (h : String) (r0 : List String)
    (hne : files ≠ []) (hh : ∀ f ∈ files, f.hash = h) :
    countOriginals (runUpload false false ⟨[], r0⟩ files).2.db h = 1 :=
  runUpload_full_count files ⟨[], r0⟩ (Or.inl rfl) hh hne

/-- Witness for C2: three files with one hash, empty index and store. -/
theorem single_original_invariant_witness :
    countOriginals (runUpload false false ⟨[], []⟩
      [⟨"D", "a.txt", "h1", 1⟩, ⟨"D", "b/b.txt", "h1", 1⟩,
        ⟨"D", "c.txt", "h1", 1⟩]).2.db "h1" = 1 :=
  single_original_invariant _ "h1" [] (by decide) (by decide)


end B2Dedup
